import Mathlib

/-!
Verification of the chatr peer-to-peer chat core.

This file shallowly embeds the parts of the `src-tauri` Rust code that the
checked claims are about, and proves (or refutes) each claim over that
embedding:

* `services/rooms.rs` — invite-code room join, deterministic channel ids
  (Rust `DefaultHasher` = SipHash-1-3 with zero keys, reimplemented here on
  `Nat` with explicit 64-bit wraparound);
* `media/peer.rs` — data-channel frame chunking (`send_frame`) and chunk
  reassembly (`ChunkAssembler`);
* `media/audio.rs` — the playback ring buffer;
* `media/engine.rs` — the media-engine command loop (voice join/leave,
  mute/deafen, the WebRTC offer tie-break on `VoiceStateChanged`).

Machine integers are modelled as `Nat` with explicit `% 2 ^ w` where the Rust
code wraps; byte buffers are `List Nat`; Rust `HashMap`s are association
lists with unique keys (insert replaces in place, iteration order is never
relied on by a claim); fallible operations return `Option`/`Except`.
-/

namespace Chatr

/-! ## 64-bit helpers (Rust `u64` arithmetic on `Nat`) -/

def add64 (a b : Nat) : Nat := (a + b) % 2 ^ 64

def xor64 (a b : Nat) : Nat := a ^^^ b

/-- `u64::rotate_left` (inputs are kept `< 2 ^ 64`). -/
def rotl64 (x n : Nat) : Nat := ((x <<< n) % 2 ^ 64) ||| (x >>> (64 - n))

/-! ## SipHash-1-3 (`std::collections::hash_map::DefaultHasher`)

`deterministic_channel_id` in `services/rooms.rs` feeds the room id and the
channel name through `DefaultHasher`, which is SipHash-1-3 with both keys
zero.  `Hash for str` writes the UTF-8 bytes followed by a `0xff` byte, so
the hashed message is `bytes(room_id) ++ [0xff] ++ bytes(name) ++ [0xff]`. -/

structure SipState where
  v0 : Nat
  v1 : Nat
  v2 : Nat
  v3 : Nat

def sipRound (s : SipState) : SipState :=
  let v0 := add64 s.v0 s.v1
  let v1 := rotl64 s.v1 13
  let v1 := xor64 v1 v0
  let v0 := rotl64 v0 32
  let v2 := add64 s.v2 s.v3
  let v3 := rotl64 s.v3 16
  let v3 := xor64 v3 v2
  let v0 := add64 v0 v3
  let v3 := rotl64 v3 21
  let v3 := xor64 v3 v0
  let v2 := add64 v2 v1
  let v1 := rotl64 v1 17
  let v1 := xor64 v1 v2
  let v2 := rotl64 v2 32
  ⟨v0, v1, v2, v3⟩

/-- Little-endian word from a list of bytes (first byte least significant). -/
def leWord (bs : List Nat) : Nat := bs.foldr (fun b acc => b + 256 * acc) 0

def sipCompress (s : SipState) (m : Nat) : SipState :=
  let s := { s with v3 := xor64 s.v3 m }
  let s := sipRound s
  { s with v0 := xor64 s.v0 m }

/-- The final SipHash word (remaining bytes plus total length mod 256 in the
top byte), the `0xff` xor, and the 3 finalization rounds. -/
def sipFinal (s : SipState) (totalLen : Nat) (tail : List Nat) : Nat :=
  let b := (((totalLen % 256) <<< 56) ||| leWord tail) % 2 ^ 64
  let s1 := sipCompress s b
  let s2 := { s1 with v2 := xor64 s1.v2 0xff }
  let s3 := sipRound (sipRound (sipRound s2))
  xor64 (xor64 s3.v0 s3.v1) (xor64 s3.v2 s3.v3)

/-- Process the message bytes 8 at a time (one compression round per word),
then finalize. -/
def sipBlocks (s : SipState) (totalLen : Nat) : List Nat → Nat
  | b0 :: b1 :: b2 :: b3 :: b4 :: b5 :: b6 :: b7 :: rest =>
    sipBlocks (sipCompress s (leWord [b0, b1, b2, b3, b4, b5, b6, b7] % 2 ^ 64)) totalLen rest
  | tail => sipFinal s totalLen tail

/-- SipHash-1-3 with keys `k0 = k1 = 0` (the `DefaultHasher::new` state). -/
def sipHash13 (msg : List Nat) : Nat :=
  let s : SipState :=
    ⟨0x736f6d6570736575, 0x646f72616e646f6d, 0x6c7967656e657261, 0x7465646279746573⟩
  sipBlocks s msg.length msg

/-- UTF-8 encoding of one character. -/
def charUtf8 (c : Char) : List Nat :=
  let n := c.toNat
  if n < 0x80 then [n]
  else if n < 0x800 then
    [0xc0 ||| (n >>> 6), 0x80 ||| (n &&& 0x3f)]
  else if n < 0x10000 then
    [0xe0 ||| (n >>> 12), 0x80 ||| ((n >>> 6) &&& 0x3f), 0x80 ||| (n &&& 0x3f)]
  else
    [0xf0 ||| (n >>> 18), 0x80 ||| ((n >>> 12) &&& 0x3f),
     0x80 ||| ((n >>> 6) &&& 0x3f), 0x80 ||| (n &&& 0x3f)]

def utf8Bytes (s : String) : List Nat := s.data.foldr (fun c acc => charUtf8 c ++ acc) []

/-- `DefaultHasher` run of `room_id.hash(h); channel_name.hash(h); h.finish()`:
each `str` contributes its UTF-8 bytes plus a `0xff` terminator. -/
def defaultHashPair (roomId channelName : String) : Nat :=
  sipHash13 (utf8Bytes roomId ++ [0xff] ++ utf8Bytes channelName ++ [0xff])

/-! ## Lower-hex formatting (`format!("{:08x}-{:04x}-{:04x}-{:04x}-{:012x}", ..)`) -/

def hexDigit (n : Nat) : Char :=
  if n < 10 then Char.ofNat (48 + n) else Char.ofNat (87 + n)

/-- Hex digits of `n`, most significant first (`"0"` for zero). -/
def natToHex (n : Nat) : List Char :=
  if _h : n < 16 then [hexDigit n]
  else natToHex (n / 16) ++ [hexDigit (n % 16)]
  decreasing_by exact Nat.div_lt_self (by omega) (by omega)

/-- Zero-pad hex of `n` to at least `w` digits, as Rust `{:0wx}` does. -/
def hexPad (w n : Nat) : List Char :=
  let ds := natToHex n
  List.replicate (w - ds.length) '0' ++ ds

def hexChars : List Char := "0123456789abcdef".data

/-- All four SipHash state words fit in 64 bits. -/
def SipState.Bounded (s : SipState) : Prop :=
  s.v0 < 2 ^ 64 ∧ s.v1 < 2 ^ 64 ∧ s.v2 < 2 ^ 64 ∧ s.v3 < 2 ^ 64

/-! ## `services/rooms.rs` -/

/-- `deterministic_channel_id(room_id, channel_name)`: bit-slices of the
64-bit `DefaultHasher` value, formatted `{:08x}-{:04x}-{:04x}-{:04x}-{:012x}`
with the same casts as the Rust code (`as u32`, `as u16`, `& 0xffff`,
`& 0xffffffffffff`). -/
def deterministic_channel_id (room_id channel_name : String) : String :=
  let hash := defaultHashPair room_id channel_name
  String.mk
    (hexPad 8 ((hash >>> 32) % 2 ^ 32) ++ ['-'] ++
     hexPad 4 (((hash >>> 16) % 2 ^ 16) &&& 0xffff) ++ ['-'] ++
     hexPad 4 (hash % 2 ^ 16) ++ ['-'] ++
     hexPad 4 ((hash >>> 48) % 2 ^ 16) ++ ['-'] ++
     hexPad 12 (hash &&& 0xffffffffffff))

structure Room where
  id : String
  name : String
  invite_code : String
  created_at : String
  owner_peer_id : Option String
  deriving Repr, DecidableEq

structure Channel where
  id : String
  room_id : String
  name : String
  created_at : String
  channel_type : String
  topic : Option String
  position : Int
  deriving Repr, DecidableEq

/-- The `#general` channel row built by `create_room` for a fresh room. -/
def createRoomGeneralChannel (room_id now : String) : Channel :=
  { id := deterministic_channel_id room_id "general"
    room_id := room_id
    name := "general"
    created_at := now
    channel_type := "text"
    topic := none
    position := 0 }

/-- The `#general` channel row built by `join_room` after invite resolution. -/
def joinRoomGeneralChannel (room_id now : String) : Channel :=
  { id := deterministic_channel_id room_id "general"
    room_id := room_id
    name := "general"
    created_at := now
    channel_type := "text"
    topic := none
    position := 0 }

/-! ## The local store (`db/rooms.rs`, as seen by `services/rooms.rs`)

The sqlite store is modelled as lists of rows; `get_room_by_invite` is a
`WHERE invite_code = ?` lookup and the `INSERT` statements append rows. -/

structure DB where
  rooms : List Room
  channels : List Channel
  deriving Repr, DecidableEq

def get_room_by_invite (db : DB) (invite_code : String) : Option Room :=
  db.rooms.find? (fun r => r.invite_code == invite_code)

def db_create_room (db : DB) (room : Room) : DB :=
  { db with rooms := db.rooms ++ [room] }

def db_create_channel (db : DB) (channel : Channel) : DB :=
  { db with channels := db.channels ++ [channel] }

/-! ## `join_room` (`services/rooms.rs`)

Network commands issued by the rooms service.  In the source the lookup
timeouts (3 s gossip, 5 s DHT) wrap the `await` of the reply oneshot; here
they are recorded on the lookup command itself. -/

inductive RoomNetCmd
  | lookupRoomViaGossip (invite_code : String) (timeout_secs : Nat)
  | lookupRoomInDHT (invite_code : String) (timeout_secs : Nat)
  | subscribeRoom (room_id : String)
  | publishRoomToDHT (room_id invite_code room_name : String)
  deriving Repr, DecidableEq

def roomNotFoundMsg : String :=
  "Room not found. Make sure someone with the room is online."

/-- The tail of `join_room` after invite resolution (the `match room_info`
block): create the room row and the deterministic `general` channel and
subscribe, or fail with the not-found error. -/
def joinFinish (db : DB) (now invite_code : String)
    (room_info : Option (String × String)) (cmds : List RoomNetCmd) :
    Except String Room × DB × List RoomNetCmd :=
  match room_info with
  | some (room_id, room_name) =>
    let room : Room :=
      { id := room_id, name := room_name, invite_code := invite_code
        created_at := now, owner_peer_id := none }
    let db := db_create_room db room
    let db := db_create_channel db (joinRoomGeneralChannel room_id now)
    (Except.ok room, db, cmds ++ [RoomNetCmd.subscribeRoom room_id])
  | none => (Except.error roomNotFoundMsg, db, cmds)

/-- `join_room`.  A lookup oneshot outcome is `some info` when the reply
`info : Option (room id, name)` arrived within the timeout (the network task
sends an explicit `None` when its gossip publish fails), and `none` when the
`await` timed out or the sender was dropped; the DHT lookup is only issued
in the latter case, exactly as in the source `match` on
`tokio::time::timeout(..)`. -/
def join_room (db : DB) (now invite_code : String)
    (gossip_reply dht_reply : Option (Option (String × String))) :
    Except String Room × DB × List RoomNetCmd :=
  match get_room_by_invite db invite_code with
  | some room => (Except.ok room, db, [])
  | none =>
    match gossip_reply with
    | some info =>
      joinFinish db now invite_code info [RoomNetCmd.lookupRoomViaGossip invite_code 3]
    | none =>
      let cmds := [RoomNetCmd.lookupRoomViaGossip invite_code 3,
                   RoomNetCmd.lookupRoomInDHT invite_code 5]
      match dht_reply with
      | some info => joinFinish db now invite_code info cmds
      | none => joinFinish db now invite_code none cmds

/-! ## Data-channel frame chunking (`media/peer.rs`)

Wire bytes are `Nat`s below 256.  `'V' = 86`, `'S' = 83`, `'C' = 67`. -/

/-- Max data channel message size (under 16KB SCTP limit). -/
def MAX_DC_MSG_SIZE : Nat := 15000

/-- Chunk header: marker, original type, frame id (4), total chunks (2),
chunk index (2) = 10 bytes. -/
def CHUNK_HEADER_SIZE : Nat := 10

/-- Max payload data per chunk. -/
def MAX_CHUNK_DATA : Nat := MAX_DC_MSG_SIZE - CHUNK_HEADER_SIZE

/-- `u32::to_le_bytes`. -/
def u32_le_bytes (n : Nat) : List Nat :=
  [n % 256, n / 2 ^ 8 % 256, n / 2 ^ 16 % 256, n / 2 ^ 24 % 256]

/-- `u16::to_le_bytes`. -/
def u16_le_bytes (n : Nat) : List Nat := [n % 256, n / 2 ^ 8 % 256]

/-- `u32::from_le_bytes` (arguments are wire bytes, each `< 256`). -/
def u32_from_le (b0 b1 b2 b3 : Nat) : Nat :=
  b0 + 2 ^ 8 * b1 + 2 ^ 16 * b2 + 2 ^ 24 * b3

/-- `u16::from_le_bytes`. -/
def u16_from_le (b0 b1 : Nat) : Nat := b0 + 2 ^ 8 * b1

/-- `jpeg_data[start .. min (start + MAX_CHUNK_DATA) len]` for chunk `i`. -/
def chunkSlice (jpeg_data : List Nat) (i : Nat) : List Nat :=
  (jpeg_data.drop (i * MAX_CHUNK_DATA)).take MAX_CHUNK_DATA

/-- One chunk message of `send_frame`'s chunked branch: the 10-byte header
followed by `jpeg_data[start .. min (start + MAX_CHUNK_DATA) len]`. -/
def sendFrameChunkMsg (type_byte : Nat) (jpeg_data : List Nat)
    (frame_id total_chunks chunk_idx : Nat) : List Nat :=
  67 :: type_byte ::
    (u32_le_bytes frame_id ++ u16_le_bytes total_chunks ++ u16_le_bytes chunk_idx ++
      chunkSlice jpeg_data chunk_idx)

structure SendOutcome where
  msgs : List (List Nat)
  frame_counter : Nat
  deriving Repr, DecidableEq

/-- `PeerManager::send_frame`: the data-channel messages built (each one is
broadcast to every open data channel; the early return when no channel is
open merely skips the sends) and the updated 32-bit `frame_counter`
(`wrapping_add(1)`, only in the chunked branch).  `total_chunks` is a `u16`
(`as u16` cast), hence the `% 2 ^ 16`. -/
def send_frame (type_byte : Nat) (jpeg_data : List Nat) (frame_counter : Nat) :
    SendOutcome :=
  if 1 + jpeg_data.length ≤ MAX_DC_MSG_SIZE then
    { msgs := [type_byte :: jpeg_data], frame_counter := frame_counter }
  else
    let frame_id := frame_counter
    let total_chunks := ((jpeg_data.length + MAX_CHUNK_DATA - 1) / MAX_CHUNK_DATA) % 2 ^ 16
    { msgs := (List.range total_chunks).map
        (fun chunk_idx => sendFrameChunkMsg type_byte jpeg_data frame_id total_chunks chunk_idx)
      frame_counter := (frame_counter + 1) % 2 ^ 32 }

/-! ## Chunk reassembly (`ChunkAssembler` in `media/peer.rs`) -/

/-- `HashMap<u16, Vec<u8>>` of received chunks, as an association list with
unique keys; `insert` replaces in place. -/
abbrev ChunkMap := List (Nat × List Nat)

def cmInsert (m : ChunkMap) (k : Nat) (v : List Nat) : ChunkMap :=
  if (m.lookup k).isSome then m.map (fun p => if p.1 = k then (k, v) else p)
  else m ++ [(k, v)]

/-- `(peer_id, frame_type, frame_id)`. -/
abbrev PendingKey := String × Nat × Nat

/-- `HashMap<(String, u8, u32), (u16, HashMap<u16, Vec<u8>>)>`. -/
abbrev PendingMap := List (PendingKey × (Nat × ChunkMap))

def pmInsert (m : PendingMap) (k : PendingKey) (v : Nat × ChunkMap) : PendingMap :=
  if (m.lookup k).isSome then m.map (fun p => if p.1 = k then (k, v) else p)
  else m ++ [(k, v)]

def pmRemove (m : PendingMap) (k : PendingKey) : PendingMap :=
  m.filter (fun p => !(p.1 == k))

structure ChunkAssembler where
  pending : PendingMap
  deriving Repr, DecidableEq

/-- `u32::wrapping_sub`. -/
def wrappingSub32 (a b : Nat) : Nat := ((a % 2 ^ 32) + 2 ^ 32 - b % 2 ^ 32) % 2 ^ 32

/-- `ChunkAssembler::add_chunk`: record the chunk under its key (creating the
entry with this chunk's `total_chunks` when absent, as `entry().or_insert_with`
does), and when the entry holds `total_chunks` distinct indices remove it and
reassemble indices `0 .. total_chunks` in order (missing indices are skipped,
as the source's `if let Some(chunk)` does). -/
def ChunkAssembler.add_chunk (a : ChunkAssembler) (peer_id : String)
    (frame_type frame_id total_chunks chunk_index : Nat) (data : List Nat) :
    ChunkAssembler × Option (String × Nat × List Nat) :=
  let key : PendingKey := (peer_id, frame_type, frame_id)
  let entry := (a.pending.lookup key).getD (total_chunks, [])
  let entryMap := cmInsert entry.2 chunk_index data
  if entryMap.length = total_chunks then
    let full_data :=
      ((List.range total_chunks).map (fun i => (entryMap.lookup i).getD [])).flatten
    (⟨pmRemove a.pending key⟩, some (peer_id, frame_type, full_data))
  else
    (⟨pmInsert a.pending key (entry.1, entryMap)⟩, none)

/-- `ChunkAssembler::cleanup`: retain an entry iff it belongs to a different
peer, a different frame type, or a frame id less than 4 older
(`current_frame_id.wrapping_sub(k.2) < 4`). -/
def ChunkAssembler.cleanup (a : ChunkAssembler) (peer_id : String)
    (frame_type current_frame_id : Nat) : ChunkAssembler :=
  ⟨a.pending.filter (fun kv =>
    !(kv.1.1 == peer_id) || !(kv.1.2.1 == frame_type) ||
      decide (wrappingSub32 current_frame_id kv.1.2.2 < 4))⟩

/-- The data-channel-borne `PeerEvent` variants (the remaining variants of
the Rust enum carry webrtc library objects and are not produced by the
`on_message` path modelled here). -/
inductive PeerEvent
  | videoFrame (peer_id : String) (data : List Nat)
  | screenFrame (peer_id : String) (data : List Nat)
  deriving Repr, DecidableEq

/-- The `match ft` at the end of the chunked branch of `on_message`. -/
def chunkEventOf (ft : Nat) (peer_id : String) (data : List Nat) : Option PeerEvent :=
  if ft = 86 then some (.videoFrame peer_id data)
  else if ft = 83 then some (.screenFrame peer_id data)
  else none

/-- The `on_message` data-channel handler: dispatch on the first byte
(`'V'`, `'S'`, `'C'`, otherwise log-and-drop); the chunked branch requires
the 10-byte header, runs `cleanup` and then `add_chunk`. -/
def on_message (asm : ChunkAssembler) (pid : String) (data : List Nat) :
    ChunkAssembler × Option PeerEvent :=
  match data with
  | [] => (asm, none)
  | b :: rest =>
    if b = 86 then (asm, some (.videoFrame pid rest))
    else if b = 83 then (asm, some (.screenFrame pid rest))
    else if b = 67 then
      match rest with
      | ft :: b0 :: b1 :: b2 :: b3 :: t0 :: t1 :: i0 :: i1 :: chunk_data =>
        let frame_id := u32_from_le b0 b1 b2 b3
        let total_chunks := u16_from_le t0 t1
        let chunk_index := u16_from_le i0 i1
        let asm1 := asm.cleanup pid ft frame_id
        match asm1.add_chunk pid ft frame_id total_chunks chunk_index chunk_data with
        | (asm2, some (peer, ft2, full)) => (asm2, chunkEventOf ft2 peer full)
        | (asm2, none) => (asm2, none)
      | _ => (asm, none)
    else (asm, none)

/-- The assembler state holding one partially-received frame keyed by
`(pid, t, fid)`, whose chunk map records `f i` for exactly the indices of
`ds`, in that insertion order. -/
def partialAsm (pid : String) (t fid total : Nat) (f : Nat → List Nat)
    (ds : List Nat) : ChunkAssembler :=
  ⟨[((pid, t, fid), (total, ds.map (fun i => (i, f i))))]⟩

/-- Deliver a list of data-channel messages in order, collecting the emitted
frame events. -/
def runMessages (asm : ChunkAssembler) (pid : String) :
    List (List Nat) → ChunkAssembler × List PeerEvent
  | [] => (asm, [])
  | m :: ms =>
    let r1 := on_message asm pid m
    let r2 := runMessages r1.1 pid ms
    (r2.1, r1.2.toList ++ r2.2)

/-! ## Playback ring buffer (`start_playback` in `media/audio.rs`)

PCM samples are `f32` in the source; the ring-buffer fragment only moves
samples around (no arithmetic), so samples are modelled as `ℚ` with `0`
standing for the `0.0` fill value. -/

/-- `while ring.len() > 4800 { ring.pop_front(); }` — run before each write
("Limit buffer to ~100ms to avoid latency buildup"). -/
def trimRing (ring : List ℚ) : List ℚ :=
  if ring.length > 4800 then trimRing (ring.drop 1) else ring
  termination_by ring.length
  decreasing_by simp only [List.length_drop]; omega

/-- One received PCM frame written into the playback ring by the receive
thread: trim, then `ring.extend(frame.iter())`. -/
def ringWrite (ring frame : List ℚ) : List ℚ := trimRing ring ++ frame

/-- The cpal output callback filling a buffer of `n` samples: when the stop
flag is cleared the buffer is zero-filled and the ring untouched; otherwise
every slot takes `ring.pop_front().unwrap_or(0.0)`.  Returns (buffer
contents, remaining ring). -/
def playback_callback (running : Bool) (ring : List ℚ) (n : Nat) :
    List ℚ × List ℚ :=
  if !running then (List.replicate n 0, ring)
  else (ring.take n ++ List.replicate (n - ring.length) 0, ring.drop n)

/-! ## Media engine state machine (`media/engine.rs`)

The engine task's local state.  Device handles are tracked as booleans
(present/absent); the frame server's per-peer stream registries are string
lists; the `f32` audio level is outside the modelled fragment.  The engine
watch-channel snapshot (`update_state`) is a pure function of this state
and is not modelled separately. -/

structure PMState where
  connections : List String
  data_channels : List String
  deriving Repr, DecidableEq

/-- Network commands the engine sends.  The source also attaches a freshly
generated uuid `call_id` to offers/answers and the webrtc-produced SDP or
ICE JSON strings; those externally generated payloads are not modelled. -/
inductive NetCmd
  | sendVoiceState (room_id : String) (channel_id : Option String)
      (muted deafened video screen_sharing : Bool)
  | sendCallOffer (room_id to_peer_id channel_id : String)
  | sendCallAnswer (room_id to_peer_id channel_id : String)
  | sendIceCandidate (room_id to_peer_id channel_id : String)
  deriving Repr, DecidableEq

/-- Engine-emitted application events (the modelled subset). -/
inductive AppEv
  | speakingChanged (peer_id : String) (speaking : Bool)
  deriving Repr, DecidableEq

structure EngineState where
  current_room_id : Option String
  current_channel_id : Option String
  is_muted : Bool
  is_deafened : Bool
  camera_enabled : Bool
  screen_sharing : Bool
  capture_active : Bool
  playback_active : Bool
  opus_encoder_active : Bool
  peer_manager : Option PMState
  remote_decoders : List String
  remote_audio : List String
  video_streams : List String
  screen_streams : List String
  speaking : Bool
  deriving Repr, DecidableEq

/-- The engine state before any command (all session state empty). -/
def idleEngine : EngineState :=
  { current_room_id := none, current_channel_id := none
    is_muted := false, is_deafened := false
    camera_enabled := false, screen_sharing := false
    capture_active := false, playback_active := false
    opus_encoder_active := false, peer_manager := none
    remote_decoders := [], remote_audio := []
    video_streams := [], screen_streams := []
    speaking := false }

/-- Idempotent frame-server stream registration. -/
def regStream (l : List String) (p : String) : List String :=
  if p ∈ l then l else l ++ [p]

/-- Frame-server stream removal. -/
def remStream (l : List String) (p : String) : List String :=
  l.filter (fun q => !(q == p))

/-- `MediaCommand::JoinVoice`: if already in a voice channel, tear down
first (close all peer connections, drop capture/playback/encoder, clear the
decoder and remote-audio maps, stop camera and screen) — without any leave
broadcast; then acquire devices (`capture_ok`/`playback_ok`/`encoder_ok`
are the `Result`s of `start_capture`, `start_playback`,
`OpusEncoder::new`; on `Err` the previous value is kept, which after the
teardown or from idle is absent), create a fresh `PeerManager`
(`PeerManager::new` never fails), set the session state, and broadcast the
join `VoiceState`. -/
def handleJoinVoice (my_peer_id : String) (s : EngineState)
    (room_id channel_id : String)
    (capture_ok playback_ok encoder_ok : Bool) : EngineState × List NetCmd :=
  let s1 :=
    if s.current_channel_id.isSome then
      { s with
        peer_manager := s.peer_manager.map (fun _ => ⟨[], []⟩)
        capture_active := false
        playback_active := false
        opus_encoder_active := false
        remote_decoders := []
        remote_audio := []
        camera_enabled := false
        screen_sharing := false
        video_streams :=
          if s.camera_enabled then remStream s.video_streams my_peer_id
          else s.video_streams
        screen_streams :=
          if s.screen_sharing then remStream s.screen_streams my_peer_id
          else s.screen_streams }
    else s
  let s2 := { s1 with
    capture_active := if capture_ok then true else s1.capture_active
    playback_active := if playback_ok then true else s1.playback_active
    opus_encoder_active := if encoder_ok then true else s1.opus_encoder_active
    peer_manager := some ⟨[], []⟩
    current_room_id := some room_id
    current_channel_id := some channel_id
    is_muted := false
    is_deafened := false
    camera_enabled := false
    screen_sharing := false }
  (s2, [NetCmd.sendVoiceState room_id (some channel_id) false false false false])

/-- `MediaCommand::LeaveVoice`: broadcast the leave state (channel `None`)
when in a room, close all connections, drop every session resource, and
return to idle. -/
def handleLeaveVoice (my_peer_id : String) (s : EngineState) :
    EngineState × List NetCmd :=
  let cmds :=
    match s.current_room_id with
    | some room_id => [NetCmd.sendVoiceState room_id none false false false false]
    | none => []
  let s1 := { s with
    peer_manager := none
    capture_active := false
    playback_active := false
    opus_encoder_active := false
    remote_decoders := []
    remote_audio := []
    camera_enabled := false
    screen_sharing := false
    video_streams :=
      if s.camera_enabled then remStream s.video_streams my_peer_id
      else s.video_streams
    screen_streams :=
      if s.screen_sharing then remStream s.screen_streams my_peer_id
      else s.screen_streams
    current_room_id := none
    current_channel_id := none
    is_muted := false
    is_deafened := false
    speaking := false }
  (s1, cmds)

/-- The voice-state rebroadcast macro (`broadcast_voice_state!`). -/
def broadcastVoiceState (s : EngineState) : List NetCmd :=
  match s.current_room_id with
  | some room_id =>
    [NetCmd.sendVoiceState room_id s.current_channel_id s.is_muted s.is_deafened
      s.camera_enabled s.screen_sharing]
  | none => []

/-- `MediaCommand::SetMuted`: set the flag; on mute also clear the speaking
flag (and the audio level) and emit a `SpeakingChanged(false)` for the local
peer; rebroadcast the voice state. -/
def handleSetMuted (my_peer_id : String) (s : EngineState) (muted : Bool) :
    EngineState × List AppEv × List NetCmd :=
  let s1 := { s with is_muted := muted
                     speaking := if muted then false else s.speaking }
  let evs := if muted then [AppEv.speakingChanged my_peer_id false] else []
  (s1, evs, broadcastVoiceState s1)

/-- `MediaCommand::SetDeafened`: set the flag and rebroadcast — nothing
else: no field of the audio path (playback handle, ring, decoders) is
touched. -/
def handleSetDeafened (s : EngineState) (deafened : Bool) :
    EngineState × List NetCmd :=
  let s1 := { s with is_deafened := deafened }
  (s1, broadcastVoiceState s1)

/-- The RTP reader task for one remote track: a received packet is skipped
when empty, otherwise decoded with the peer's decoder (producing a PCM
frame) and `try_send` into the playback queue, whence the receive thread
performs `ringWrite`.  The deafened flag is not consulted anywhere on this
path. -/
def remoteFrameToRing (ring : List ℚ) (decoded_frame : List ℚ) : List ℚ :=
  ringWrite ring decoded_frame

/-! ## `VoiceStateChanged` handling and the offer tie-break
(`run_media_engine`, `AppEvent::VoiceStateChanged` arm) -/

/-- The fields of `AppEvent::VoiceStateChanged` the engine reads (the
`..`-ignored ones are omitted). -/
structure VoiceStateEvent where
  peer_id : String
  channel_id : Option String
  room_id : String
  video : Bool
  screen_sharing : Bool
  deriving Repr, DecidableEq

/-- The offer decision inside the same-channel branch: offer iff
`my_peer_id < remote` (byte-lexicographic `String` order) and no connection
to that peer exists; on offer the new connection (and its data channel) is
recorded and a `SendCallOffer` goes out (`create_offer` of the webrtc stack
is modelled as succeeding). -/
def offerStep (my_peer_id : String) (s : EngineState) (ev : VoiceStateEvent)
    (channel_id : String) : EngineState × List NetCmd :=
  if my_peer_id < ev.peer_id then
    match s.peer_manager with
    | some pm =>
      if ev.peer_id ∈ pm.connections then (s, [])
      else
        ({ s with peer_manager := some ⟨pm.connections ++ [ev.peer_id],
                                        pm.data_channels ++ [ev.peer_id]⟩ },
         [NetCmd.sendCallOffer (s.current_room_id.getD "") ev.peer_id channel_id])
    | none => (s, [])
  else (s, [])

/-- The same-channel branch: a remote peer announcing itself in the local
(room, channel) gets its video/screen streams registered, then the offer
tie-break runs. -/
def sameChannelStep (my_peer_id : String) (s : EngineState)
    (ev : VoiceStateEvent) (channel_id : String) : EngineState × List NetCmd :=
  if ev.peer_id ≠ my_peer_id ∧ ev.channel_id = some channel_id
      ∧ some ev.room_id = s.current_room_id then
    let s1 := { s with
      video_streams :=
        if ev.video then regStream s.video_streams ev.peer_id
        else s.video_streams
      screen_streams :=
        if ev.screen_sharing then regStream s.screen_streams ev.peer_id
        else s.screen_streams }
    offerStep my_peer_id s1 ev channel_id
  else (s, [])

/-- The peer-left branch: a remote peer whose state carries `channel = None`
has its connection closed and its decoder, pending audio and streams
removed. -/
def leaveStep (my_peer_id : String) (s : EngineState) (ev : VoiceStateEvent) :
    EngineState :=
  if ev.peer_id ≠ my_peer_id ∧ ev.channel_id = none then
    { s with
      peer_manager := s.peer_manager.map (fun pm =>
        ⟨pm.connections.filter (fun q => !(q == ev.peer_id)),
         pm.data_channels.filter (fun q => !(q == ev.peer_id))⟩)
      remote_decoders := s.remote_decoders.filter (fun q => !(q == ev.peer_id))
      remote_audio := s.remote_audio.filter (fun q => !(q == ev.peer_id))
      video_streams := remStream s.video_streams ev.peer_id
      screen_streams := remStream s.screen_streams ev.peer_id }
  else s

/-- The `AppEvent::VoiceStateChanged` arm: ignored when not in a voice
channel; otherwise the same-channel branch (stream registration and offer
tie-break) runs, then the peer-left branch. -/
def handleVoiceStateChanged (my_peer_id : String) (s : EngineState)
    (ev : VoiceStateEvent) : EngineState × List NetCmd :=
  match s.current_channel_id with
  | none => (s, [])
  | some channel_id =>
    let r1 := sameChannelStep my_peer_id s ev channel_id
    (leaveStep my_peer_id r1.1 ev, r1.2)

/-- Fold a list of `VoiceStateChanged` events through the engine,
accumulating the network commands. -/
def runEvents (my_peer_id : String) :
    EngineState → List VoiceStateEvent → EngineState × List NetCmd
  | s, [] => (s, [])
  | s, ev :: evs =>
    let r1 := handleVoiceStateChanged my_peer_id s ev
    let r2 := runEvents my_peer_id r1.1 evs
    (r2.1, r1.2 ++ r2.2)

/-- Number of `SendCallOffer` commands addressed to `p`. -/
def offerCount (cmds : List NetCmd) (p : String) : Nat :=
  (cmds.filter (fun c => match c with
    | NetCmd.sendCallOffer _ to_peer_id _ => to_peer_id == p
    | _ => false)).length

/-- A `SendVoiceState` with `channel = None` — the leave broadcast. -/
def isLeaveBroadcast (c : NetCmd) : Bool :=
  match c with
  | NetCmd.sendVoiceState _ none _ _ _ _ => true
  | _ => false

/-! ## Hex-format lemmas for claim C2 -/

theorem hexDigit_mem_hexChars : ∀ n, n < 16 → hexDigit n ∈ hexChars := by decide

theorem natToHex_mem_hexChars (n : Nat) : ∀ c ∈ natToHex n, c ∈ hexChars := by
  induction n using Nat.strong_induction_on with
  | _ n ih =>
    rw [natToHex]
    split
    · intro c hc
      simp only [List.mem_singleton] at hc
      subst hc
      exact hexDigit_mem_hexChars n (by omega)
    · intro c hc
      rcases List.mem_append.mp hc with h | h
      · exact ih (n / 16) (Nat.div_lt_self (by omega) (by omega)) c h
      · simp only [List.mem_singleton] at h
        subst h
        exact hexDigit_mem_hexChars _ (Nat.mod_lt _ (by omega))

theorem natToHex_length_le (w : Nat) : ∀ n, 0 < w → n < 16 ^ w → (natToHex n).length ≤ w := by
  induction w with
  | zero => omega
  | succ w ih =>
    intro n _ hn
    rw [natToHex]
    split
    · simp
    · rcases Nat.eq_zero_or_pos w with hw | hw
      · subst hw; simp at hn; omega
      · have hdiv : n / 16 < 16 ^ w := by
          have : n < 16 ^ w * 16 := by
            calc n < 16 ^ (w + 1) := hn
            _ = 16 ^ w * 16 := by ring
          omega
        have := ih (n / 16) hw hdiv
        simp only [List.length_append, List.length_singleton]
        omega

theorem hexPad_length (w n : Nat) (hw : 0 < w) (hn : n < 16 ^ w) :
    (hexPad w n).length = w := by
  have h := natToHex_length_le w n hw hn
  simp only [hexPad, List.length_append, List.length_replicate]
  omega

theorem hexPad_mem_hexChars (w n : Nat) : ∀ c ∈ hexPad w n, c ∈ hexChars := by
  intro c hc
  rcases List.mem_append.mp hc with h | h
  · have := List.eq_of_mem_replicate h
    subst this
    decide
  · exact natToHex_mem_hexChars n c h

/-! ## 64-bit boundedness of the SipHash state (claim C2) -/

theorem add64_lt (a b : Nat) : add64 a b < 2 ^ 64 := Nat.mod_lt _ (by norm_num)

theorem xor64_lt {a b : Nat} (ha : a < 2 ^ 64) (hb : b < 2 ^ 64) : xor64 a b < 2 ^ 64 :=
  Nat.xor_lt_two_pow ha hb

theorem rotl64_lt {x : Nat} (n : Nat) (hx : x < 2 ^ 64) : rotl64 x n < 2 ^ 64 := by
  refine Nat.or_lt_two_pow (Nat.mod_lt _ (by norm_num)) ?_
  calc x >>> (64 - n) ≤ x := by
        rw [Nat.shiftRight_eq_div_pow]
        exact Nat.div_le_self x _
  _ < 2 ^ 64 := hx

theorem sipRound_bounded {s : SipState} (h : s.Bounded) : (sipRound s).Bounded := by
  obtain ⟨h0, h1, h2, h3⟩ := h
  refine ⟨?_, ?_, ?_, ?_⟩ <;>
    simp only [sipRound] <;>
    first
      | exact add64_lt _ _
      | exact xor64_lt (rotl64_lt _ (add64_lt _ _)) (add64_lt _ _)
      | exact rotl64_lt _ (add64_lt _ _)
      | exact xor64_lt (rotl64_lt _ (xor64_lt (rotl64_lt _ h1) (add64_lt _ _))) (add64_lt _ _)
      | exact xor64_lt (rotl64_lt _ (xor64_lt (rotl64_lt _ h3) (add64_lt _ _))) (add64_lt _ _)

theorem sipCompress_bounded {s : SipState} {m : Nat} (h : s.Bounded) (hm : m < 2 ^ 64) :
    (sipCompress s m).Bounded := by
  obtain ⟨h0, h1, h2, h3⟩ := h
  have hr : (sipRound { s with v3 := xor64 s.v3 m }).Bounded :=
    sipRound_bounded ⟨h0, h1, h2, xor64_lt h3 hm⟩
  obtain ⟨g0, g1, g2, g3⟩ := hr
  exact ⟨xor64_lt g0 hm, g1, g2, g3⟩

theorem sipFinal_lt {s : SipState} (h : s.Bounded) (totalLen : Nat) (tail : List Nat) :
    sipFinal s totalLen tail < 2 ^ 64 := by
  have h1 := sipCompress_bounded h
    (Nat.mod_lt ((((totalLen % 256) <<< 56) ||| leWord tail)) (y := 2 ^ 64) (by norm_num))
  obtain ⟨g0, g1, g2, g3⟩ := h1
  have h2 := sipRound_bounded (sipRound_bounded (sipRound_bounded
    (s := { sipCompress s ((((totalLen % 256) <<< 56) ||| leWord tail) % 2 ^ 64) with
            v2 := xor64 (sipCompress s ((((totalLen % 256) <<< 56) ||| leWord tail) % 2 ^ 64)).v2 0xff })
    ⟨g0, g1, xor64_lt g2 (by norm_num), g3⟩))
  obtain ⟨f0, f1, f2, f3⟩ := h2
  exact xor64_lt (xor64_lt f0 f1) (xor64_lt f2 f3)

theorem sipBlocks_lt (s : SipState) (totalLen : Nat) (msg : List Nat) :
    s.Bounded → sipBlocks s totalLen msg < 2 ^ 64 := by
  induction s, totalLen, msg using sipBlocks.induct with
  | case1 s totalLen b0 b1 b2 b3 b4 b5 b6 b7 rest ih =>
    intro h
    rw [sipBlocks]
    exact ih (sipCompress_bounded h (Nat.mod_lt _ (by norm_num)))
  | case2 s totalLen tail hne =>
    intro h
    rw [sipBlocks.eq_def]
    split
    · next b0 b1 b2 b3 b4 b5 b6 b7 rest =>
      exact absurd rfl (hne b0 b1 b2 b3 b4 b5 b6 b7 rest)
    · exact sipFinal_lt h totalLen tail

theorem sipHash13_lt (msg : List Nat) : sipHash13 msg < 2 ^ 64 :=
  sipBlocks_lt _ _ _ (by refine ⟨?_, ?_, ?_, ?_⟩ <;> norm_num)

/-- C2: `deterministic_channel_id` is a pure function of (room id, channel
name): the creator (`create_room`) and a joiner (`join_room`) derive the
identical id for the `general` channel of the same room without
communication, the underlying `DefaultHasher` value is a 64-bit hash, and
the resulting id is always an eight-hex / four-hex / four-hex / four-hex /
twelve-hex string (dash-separated, lower-case hex) obtained by bit-slicing
that hash. -/
theorem deterministic_channel_id_agreement_and_format :
    (∀ room_id nowCreate nowJoin,
      (createRoomGeneralChannel room_id nowCreate).id
        = (joinRoomGeneralChannel room_id nowJoin).id)
    ∧ (∀ room_id channel_name, defaultHashPair room_id channel_name < 2 ^ 64)
    ∧ (∀ room_id channel_name, ∃ g1 g2 g3 g4 g5 : List Char,
        (deterministic_channel_id room_id channel_name).data
          = g1 ++ ['-'] ++ g2 ++ ['-'] ++ g3 ++ ['-'] ++ g4 ++ ['-'] ++ g5
        ∧ g1.length = 8 ∧ g2.length = 4 ∧ g3.length = 4 ∧ g4.length = 4
        ∧ g5.length = 12
        ∧ ∀ c ∈ g1 ++ g2 ++ g3 ++ g4 ++ g5, c ∈ hexChars) := by
  refine ⟨fun _ _ _ => rfl, fun r n => sipHash13_lt _, fun r n => ?_⟩
  refine ⟨hexPad 8 ((defaultHashPair r n >>> 32) % 2 ^ 32),
    hexPad 4 (((defaultHashPair r n >>> 16) % 2 ^ 16) &&& 0xffff),
    hexPad 4 (defaultHashPair r n % 2 ^ 16),
    hexPad 4 ((defaultHashPair r n >>> 48) % 2 ^ 16),
    hexPad 12 (defaultHashPair r n &&& 0xffffffffffff),
    rfl, ?_, ?_, ?_, ?_, ?_, ?_⟩
  · exact hexPad_length 8 _ (by norm_num) (by
      have := Nat.mod_lt (defaultHashPair r n >>> 32) (y := 2 ^ 32) (by norm_num)
      omega)
  · exact hexPad_length 4 _ (by norm_num)
      (Nat.and_lt_two_pow (n := 16) _ (by norm_num))
  · exact hexPad_length 4 _ (by norm_num) (by
      have := Nat.mod_lt (defaultHashPair r n) (y := 2 ^ 16) (by norm_num)
      omega)
  · exact hexPad_length 4 _ (by norm_num) (by
      have := Nat.mod_lt (defaultHashPair r n >>> 48) (y := 2 ^ 16) (by norm_num)
      omega)
  · exact hexPad_length 12 _ (by norm_num)
      (Nat.and_lt_two_pow (n := 48) _ (by norm_num))
  · intro c hc
    simp only [List.mem_append] at hc
    rcases hc with (((h | h) | h) | h) | h <;> exact hexPad_mem_hexChars _ _ c h

/-- C6 counterexample: the error returned by `join_room` when both lookups
come back empty is `"Room not found. Make sure someone with the room is
online."`, which does not contain the lower-case substring
`"room not found"` claimed by the spec. -/
theorem join_room_error_lacks_lowercase_substring :
    (join_room ⟨[], []⟩ "t0" "AB23CDEF" none none).1 = Except.error roomNotFoundMsg
    ∧ ¬ ("room not found".data <:+: roomNotFoundMsg.data) := by
  exact ⟨rfl, by decide⟩

/-- C6 (amended): for an invite code not stored locally, `join_room` first
issues the gossip lookup (3-second timeout); when the gossip await yields no
reply within the timeout it issues the DHT lookup (5-second timeout); when
the lookups resolve to no room it returns the error `"Room not found. …"`
(which contains `"Room not found"`, capital R, not the lower-case
`"room not found"`), creates no room and no channel in the store and issues
no subscribe-room; on success it creates the room row and the deterministic
`general` channel and issues subscribe-room. -/
theorem join_room_two_stage_lookup (db : DB) (now invite : String)
    (gossip dht : Option (Option (String × String)))
    (hmiss : get_room_by_invite db invite = none) :
    ((join_room db now invite gossip dht).2.2.head?
        = some (RoomNetCmd.lookupRoomViaGossip invite 3))
    ∧ (gossip = none →
        RoomNetCmd.lookupRoomInDHT invite 5 ∈ (join_room db now invite gossip dht).2.2)
    ∧ ((gossip = some none ∨ (gossip = none ∧ (dht = none ∨ dht = some none))) →
        (join_room db now invite gossip dht).1 = Except.error roomNotFoundMsg
        ∧ "Room not found".data <:+: roomNotFoundMsg.data
        ∧ (join_room db now invite gossip dht).2.1 = db
        ∧ ∀ rid, RoomNetCmd.subscribeRoom rid ∉ (join_room db now invite gossip dht).2.2)
    ∧ (∀ rid rname,
        (gossip = some (some (rid, rname))
          ∨ (gossip = none ∧ dht = some (some (rid, rname)))) →
        (join_room db now invite gossip dht).1
          = Except.ok { id := rid, name := rname, invite_code := invite
                        created_at := now, owner_peer_id := none }
        ∧ (join_room db now invite gossip dht).2.1
          = db_create_channel
              (db_create_room db
                { id := rid, name := rname, invite_code := invite
                  created_at := now, owner_peer_id := none })
              (joinRoomGeneralChannel rid now)
        ∧ RoomNetCmd.subscribeRoom rid ∈ (join_room db now invite gossip dht).2.2) := by
  refine ⟨?_, ?_, ?_, ?_⟩
  · rcases gossip with _ | (_ | ⟨a, b⟩) <;>
      rcases dht with _ | (_ | ⟨c, d⟩) <;>
      simp [join_room, joinFinish, hmiss]
  · rintro rfl
    rcases dht with _ | (_ | ⟨c, d⟩) <;> simp [join_room, joinFinish, hmiss]
  · rintro (rfl | ⟨rfl, (rfl | rfl)⟩) <;>
      refine ⟨by simp [join_room, joinFinish, hmiss], by decide,
        by simp [join_room, joinFinish, hmiss], ?_⟩ <;>
      intro rid <;> simp [join_room, joinFinish, hmiss]
  · rintro rid rname (rfl | ⟨rfl, rfl⟩) <;>
      exact ⟨by simp [join_room, joinFinish, hmiss],
        by simp [join_room, joinFinish, hmiss],
        by simp [join_room, joinFinish, hmiss]⟩

theorem join_room_two_stage_lookup_witness :
    get_room_by_invite ⟨[], []⟩ "AB23CDEF" = none
    ∧ (join_room ⟨[], []⟩ "t0" "AB23CDEF" none none).1 = Except.error roomNotFoundMsg
    ∧ (join_room ⟨[], []⟩ "t0" "AB23CDEF" none none).2.1 = (⟨[], []⟩ : DB)
    ∧ (join_room ⟨[], []⟩ "t0" "AB23CDEF" none none).2.2.head?
        = some (RoomNetCmd.lookupRoomViaGossip "AB23CDEF" 3) :=
  ⟨rfl,
   ((join_room_two_stage_lookup ⟨[], []⟩ "t0" "AB23CDEF" none none rfl).2.2.1
      (Or.inr ⟨rfl, Or.inl rfl⟩)).1,
   ((join_room_two_stage_lookup ⟨[], []⟩ "t0" "AB23CDEF" none none rfl).2.2.1
      (Or.inr ⟨rfl, Or.inl rfl⟩)).2.2.1,
   (join_room_two_stage_lookup ⟨[], []⟩ "t0" "AB23CDEF" none none rfl).1⟩

/-- C10: when a room with the given invite code is already in the local
store, `join_room` returns it immediately and unchanged, issues no network
command at all, and leaves the store unmodified. -/
theorem join_room_local_hit_frame (db : DB) (now invite : String)
    (gossip dht : Option (Option (String × String))) (room : Room)
    (h : get_room_by_invite db invite = some room) :
    join_room db now invite gossip dht = (Except.ok room, db, []) := by
  simp [join_room, h]

theorem join_room_local_hit_frame_witness :
    get_room_by_invite ⟨[⟨"room-1", "R", "AB23CDEF", "t0", some "peer-a"⟩], []⟩ "AB23CDEF"
      = some ⟨"room-1", "R", "AB23CDEF", "t0", some "peer-a"⟩
    ∧ join_room ⟨[⟨"room-1", "R", "AB23CDEF", "t0", some "peer-a"⟩], []⟩ "t1" "AB23CDEF"
        (some (some ("other", "X"))) none
      = (Except.ok ⟨"room-1", "R", "AB23CDEF", "t0", some "peer-a"⟩,
         ⟨[⟨"room-1", "R", "AB23CDEF", "t0", some "peer-a"⟩], []⟩, []) :=
  ⟨rfl, join_room_local_hit_frame _ _ _ _ _ _ rfl⟩

/-! ## Chunking lemmas (claims C3, C4, C5) -/

theorem u16_le_roundtrip (n : Nat) : u16_from_le (n % 256) (n / 2 ^ 8 % 256) = n % 2 ^ 16 := by
  simp only [u16_from_le]
  omega

theorem u32_le_roundtrip (n : Nat) :
    u32_from_le (n % 256) (n / 2 ^ 8 % 256) (n / 2 ^ 16 % 256) (n / 2 ^ 24 % 256)
      = n % 2 ^ 32 := by
  simp only [u32_from_le]
  omega

/-- Concatenating the `⌈len / C⌉` successive `C`-sized slices of a nonempty
list reproduces it. -/
theorem chunk_slices_flatten (C : Nat) (hC : 0 < C) :
    ∀ (n : Nat) (l : List Nat), l ≠ [] → n = (l.length + C - 1) / C →
      ((List.range n).map (fun i => (l.drop (i * C)).take C)).flatten = l := by
  intro n
  induction n with
  | zero =>
    intro l hne hn
    exfalso
    have hlen : 0 < l.length := List.length_pos.mpr hne
    have hdiv : 1 ≤ (l.length + C - 1) / C := by
      refine (Nat.le_div_iff_mul_le hC).mpr ?_
      omega
    omega
  | succ n ih =>
    intro l hne hn
    by_cases hlc : l.length ≤ C
    · have hlen : 0 < l.length := List.length_pos.mpr hne
      have h1 : (l.length + C - 1) / C = 1 := by
        apply Nat.div_eq_of_lt_le <;> omega
      have hn0 : n = 0 := by omega
      subst hn0
      have hr1 : List.range 1 = [0] := rfl
      simp [hr1, List.take_of_length_le hlc]
    · push_neg at hlc
      have hlen : 0 < l.length := List.length_pos.mpr hne
      have hn' : n = ((l.drop C).length + C - 1) / C := by
        have hstep : l.length + C - 1 = ((l.drop C).length + C - 1) + C := by
          simp only [List.length_drop]
          omega
        rw [hstep, Nat.add_div_right _ hC] at hn
        omega
      have hne' : l.drop C ≠ [] := by
        intro hcon
        have := congrArg List.length hcon
        simp only [List.length_drop, List.length_nil] at this
        omega
      have ihd := ih (l.drop C) hne' hn'
      rw [List.range_succ_eq_map]
      simp only [List.map_cons, List.flatten_cons, Nat.zero_mul, List.drop_zero,
        List.map_map]
      have hcomp :
          ((List.range n).map ((fun i => (l.drop (i * C)).take C) ∘ Nat.succ))
            = (List.range n).map (fun i => ((l.drop C).drop (i * C)).take C) := by
        apply List.map_congr_left
        intro i _
        simp only [Function.comp_apply, List.drop_drop]
        rw [Nat.succ_mul, Nat.add_comm]
      rw [hcomp, ihd, List.take_append_drop]

theorem lookup_map_pair (f : Nat → List Nat) (ds : List Nat) (k : Nat) :
    (ds.map (fun i => (i, f i))).lookup k = if k ∈ ds then some (f k) else none := by
  induction ds with
  | nil => simp
  | cons d ds ih =>
    by_cases hk : k = d
    · subst hk
      simp [List.lookup]
    · have hbeq : (k == d) = false := beq_eq_false_iff_ne.mpr hk
      simp [List.lookup, hbeq, ih, hk]

theorem cmInsert_fresh (f : Nat → List Nat) (ds : List Nat) (k : Nat) (hk : k ∉ ds) :
    cmInsert (ds.map (fun i => (i, f i))) k (f k)
      = (ds ++ [k]).map (fun i => (i, f i)) := by
  simp [cmInsert, lookup_map_pair, hk]

theorem cleanup_partialAsm (pid : String) (t fid total : Nat) (f : Nat → List Nat)
    (ds : List Nat) :
    (partialAsm pid t fid total f ds).cleanup pid t fid
      = partialAsm pid t fid total f ds := by
  have hw : wrappingSub32 fid fid = 0 := by
    simp only [wrappingSub32]
    have h1 : fid % 2 ^ 32 < 2 ^ 32 := Nat.mod_lt _ (by norm_num)
    have h2 : fid % 2 ^ 32 + 2 ^ 32 - fid % 2 ^ 32 = 2 ^ 32 := by omega
    simp [h2]
  simp [ChunkAssembler.cleanup, partialAsm, hw]

theorem cleanup_empty (pid : String) (t fid : Nat) :
    (⟨[]⟩ : ChunkAssembler).cleanup pid t fid = ⟨[]⟩ := by
  simp [ChunkAssembler.cleanup]

theorem pending_lookup_singleton (key : PendingKey) (v : Nat × ChunkMap) :
    ([(key, v)] : PendingMap).lookup key = some v := by
  simp [List.lookup]

theorem pmInsert_singleton_hit (key : PendingKey) (v w : Nat × ChunkMap) :
    pmInsert [(key, v)] key w = [(key, w)] := by
  simp [pmInsert, List.lookup]

theorem pmRemove_singleton (key : PendingKey) (v : Nat × ChunkMap) :
    pmRemove [(key, v)] key = [] := by
  simp [pmRemove]

theorem add_chunk_partial_more (pid : String) (t fid total : Nat) (f : Nat → List Nat)
    (ds : List Nat) (k : Nat) (hk : k ∉ ds) (hlen : ds.length + 1 ≠ total) :
    (partialAsm pid t fid total f ds).add_chunk pid t fid total k (f k)
      = (partialAsm pid t fid total f (ds ++ [k]), none) := by
  simp only [ChunkAssembler.add_chunk, partialAsm, pending_lookup_singleton,
    Option.getD_some, cmInsert_fresh f ds k hk]
  rw [if_neg (by simp [hlen])]
  rw [pmInsert_singleton_hit]

theorem add_chunk_partial_complete (pid : String) (t fid total : Nat)
    (f : Nat → List Nat) (ds : List Nat) (k : Nat) (hk : k ∉ ds)
    (hlen : ds.length + 1 = total) (hcov : ∀ i, i < total → i ∈ ds ++ [k]) :
    (partialAsm pid t fid total f ds).add_chunk pid t fid total k (f k)
      = (⟨[]⟩, some (pid, t, ((List.range total).map f).flatten)) := by
  have hfull :
      (List.range total).map
          (fun i => ((((ds ++ [k]).map (fun j => (j, f j))).lookup i).getD []))
        = (List.range total).map f := by
    apply List.map_congr_left
    intro i hi
    rw [lookup_map_pair]
    simp [hcov i (List.mem_range.mp hi)]
  simp only [ChunkAssembler.add_chunk, partialAsm, pending_lookup_singleton,
    Option.getD_some, cmInsert_fresh f ds k hk]
  rw [if_pos (by simp [hlen])]
  rw [pmRemove_singleton, hfull]

theorem add_chunk_from_empty (pid : String) (t fid total : Nat) (f : Nat → List Nat)
    (k : Nat) (hne : 1 ≠ total) :
    (⟨[]⟩ : ChunkAssembler).add_chunk pid t fid total k (f k)
      = (partialAsm pid t fid total f [k], none) := by
  simp only [ChunkAssembler.add_chunk, List.lookup, Option.getD_none, cmInsert,
    List.map_nil, List.nil_append, Option.isSome_none, Bool.false_eq_true, if_false]
  rw [if_neg (by simp only [List.length_cons, List.length_nil]; omega)]
  simp [pmInsert, partialAsm]

theorem on_message_parse (asm : ChunkAssembler) (pid : String) (t fid total k : Nat)
    (payload : List Nat) (hfid : fid < 2 ^ 32) (htlt : total < 2 ^ 16)
    (hk : k < 2 ^ 16) :
    on_message asm pid (sendFrameChunkMsg t payload fid total k)
      = (((asm.cleanup pid t fid).add_chunk pid t fid total k
            (chunkSlice payload k)).1,
         match ((asm.cleanup pid t fid).add_chunk pid t fid total k
            (chunkSlice payload k)).2 with
         | some (peer, ft2, full) => chunkEventOf ft2 peer full
         | none => none) := by
  have h32 : u32_from_le (fid % 256) (fid / 2 ^ 8 % 256) (fid / 2 ^ 16 % 256)
      (fid / 2 ^ 24 % 256) = fid := by
    rw [u32_le_roundtrip, Nat.mod_eq_of_lt hfid]
  have h16t : u16_from_le (total % 256) (total / 2 ^ 8 % 256) = total := by
    rw [u16_le_roundtrip, Nat.mod_eq_of_lt htlt]
  have h16k : u16_from_le (k % 256) (k / 2 ^ 8 % 256) = k := by
    rw [u16_le_roundtrip, Nat.mod_eq_of_lt hk]
  simp only [on_message, sendFrameChunkMsg, u32_le_bytes, u16_le_bytes,
    List.cons_append, List.nil_append, h32, h16t, h16k]
  norm_num
  rcases hr : (asm.cleanup pid t fid).add_chunk pid t fid total k
      (chunkSlice payload k) with ⟨a2, _ | ⟨peer, ft2, full⟩⟩ <;>
    simp [hr]

/-- Core induction for claim C3: delivering the chunk messages of one frame
in an arbitrary order `k :: rest` (with the already-delivered indices `ds`
recorded in the assembler) ends with the empty assembler and exactly the
reassembled frame event. -/
theorem runMessages_chunk_perm (payload : List Nat) (pid : String)
    (t fid total : Nat) (hfid : fid < 2 ^ 32) (htlt : total < 2 ^ 16)
    (h2 : 2 ≤ total)
    (htot : total = (payload.length + MAX_CHUNK_DATA - 1) / MAX_CHUNK_DATA)
    (hpay : payload ≠ []) :
    ∀ (idxs ds : List Nat) (asm : ChunkAssembler),
      (ds ++ idxs).Perm (List.range total) → idxs ≠ [] →
      ((ds = [] ∧ asm = ⟨[]⟩)
        ∨ asm = partialAsm pid t fid total (chunkSlice payload) ds) →
      runMessages asm pid
          (idxs.map (fun i => sendFrameChunkMsg t payload fid total i))
        = (⟨[]⟩, (chunkEventOf t pid payload).toList) := by
  intro idxs
  induction idxs with
  | nil => intro ds asm _ hne _; exact absurd rfl hne
  | cons k rest ih =>
    intro ds asm hperm _ hstate
    have hnodup : (ds ++ k :: rest).Nodup :=
      (hperm.nodup_iff).mpr (List.nodup_range total)
    have hnd := hnodup
    rw [List.nodup_append] at hnd
    obtain ⟨hnds, hndk, hdisj⟩ := hnd
    have hkds : k ∉ ds := fun h => hdisj h (List.mem_cons_self k rest)
    have hkrest : k ∉ rest := (List.nodup_cons.mp hndk).1
    have hkmem : k ∈ List.range total :=
      (hperm.mem_iff).mp (by simp)
    have hktotal : k < total := List.mem_range.mp hkmem
    have hk16 : k < 2 ^ 16 := lt_trans hktotal htlt
    have hlentot : ds.length + 1 + rest.length = total := by
      have := hperm.length_eq
      simp only [List.length_append, List.length_cons, List.length_range] at this
      omega
    simp only [List.map_cons, runMessages]
    rw [on_message_parse asm pid t fid total k payload hfid htlt hk16]
    rcases hstate with ⟨rfl, rfl⟩ | rfl
    · -- first chunk of the frame: assembler is empty
      rw [cleanup_empty]
      rcases rest with _ | ⟨r, rs⟩
      · exfalso; simp at hlentot; omega
      · rw [add_chunk_from_empty pid t fid total (chunkSlice payload) k (by omega)]
        simp only []
        have hihres := ih [k] (partialAsm pid t fid total (chunkSlice payload) [k])
          (by simpa using hperm) (by simp) (Or.inr rfl)
        simp only [List.nil_append] at hperm
        rw [hihres]
        simp
    · -- later chunk: assembler holds the partial entry
      rw [cleanup_partialAsm]
      rcases rest with _ | ⟨r, rs⟩
      · -- final chunk: completion
        have hlen : ds.length + 1 = total := by simpa using hlentot
        have hcov : ∀ i, i < total → i ∈ ds ++ [k] := by
          intro i hi
          exact (hperm.mem_iff).mpr (List.mem_range.mpr hi)
        rw [add_chunk_partial_complete pid t fid total (chunkSlice payload) ds k
          hkds hlen hcov]
        have hflat :
            ((List.range total).map (chunkSlice payload)).flatten = payload := by
          have hC : 0 < MAX_CHUNK_DATA := by norm_num [MAX_CHUNK_DATA,
            MAX_DC_MSG_SIZE, CHUNK_HEADER_SIZE]
          simpa [chunkSlice] using
            chunk_slices_flatten MAX_CHUNK_DATA hC total payload hpay htot
        simp [runMessages, hflat]
      · -- middle chunk: entry grows
        have hlen : ds.length + 1 ≠ total := by
          simp only [List.length_cons] at hlentot
          omega
        rw [add_chunk_partial_more pid t fid total (chunkSlice payload) ds k
          hkds hlen]
        simp only []
        have hihres := ih (ds ++ [k])
          (partialAsm pid t fid total (chunkSlice payload) (ds ++ [k]))
          (by simpa using hperm) (by simp) (Or.inr rfl)
        rw [hihres]
        simp

/-- In the chunked branch (`1 + len > 15000`, chunk count fitting `u16`),
`send_frame` emits exactly the chunk messages for indices
`0 .. ceil(len / MAX_CHUNK_DATA)` in increasing order. -/
theorem send_frame_chunked_eq (t : Nat) (payload : List Nat) (ctr : Nat)
    (hbig : MAX_DC_MSG_SIZE < 1 + payload.length)
    (hfit : payload.length ≤ MAX_CHUNK_DATA * 65535) :
    (send_frame t payload ctr).msgs
      = (List.range ((payload.length + MAX_CHUNK_DATA - 1) / MAX_CHUNK_DATA)).map
          (fun i => sendFrameChunkMsg t payload ctr
            ((payload.length + MAX_CHUNK_DATA - 1) / MAX_CHUNK_DATA) i) := by
  have hCunfold : MAX_CHUNK_DATA = 14990 := by
    norm_num [MAX_CHUNK_DATA, MAX_DC_MSG_SIZE, CHUNK_HEADER_SIZE]
  have hM : MAX_DC_MSG_SIZE = 15000 := by norm_num [MAX_DC_MSG_SIZE]
  have htlt : (payload.length + MAX_CHUNK_DATA - 1) / MAX_CHUNK_DATA < 2 ^ 16 := by
    rw [hCunfold]
    rw [hCunfold] at hfit
    omega
  rw [send_frame, if_neg (by omega)]
  simp only []
  rw [Nat.mod_eq_of_lt htlt]

/-- C3: round-trip of the chunked data-channel frame encoding.  For every
JPEG payload that `send_frame` splits into chunks (each chunk carrying the
10-byte header: `'C'`, the frame-type byte, the little-endian `u32` frame
id, the `u16` chunk total and the `u16` chunk index), delivering all the
chunk messages of that frame, in any order, to the `on_message` handler
(which runs `ChunkAssembler::cleanup` and `ChunkAssembler::add_chunk`)
reassembles byte-for-byte the sender's original payload with the original
frame type.  The payload bound keeps the `u16` chunk count meaningful
(camera frames are 640×480 JPEGs and screen frames 1280×720, far below it),
and the frame counter is a `u32`. -/
theorem chunked_frame_roundtrip (payload : List Nat) (pid : String)
    (t ctr : Nat) (idxs : List Nat)
    (hbig : MAX_DC_MSG_SIZE < 1 + payload.length)
    (hfit : payload.length ≤ MAX_CHUNK_DATA * 65535)
    (hctr : ctr < 2 ^ 32)
    (ht : t = 86 ∨ t = 83)
    (hperm : idxs.Perm
      (List.range ((payload.length + MAX_CHUNK_DATA - 1) / MAX_CHUNK_DATA))) :
    (send_frame t payload ctr).msgs
        = (List.range ((payload.length + MAX_CHUNK_DATA - 1) / MAX_CHUNK_DATA)).map
            (fun i => sendFrameChunkMsg t payload ctr
              ((payload.length + MAX_CHUNK_DATA - 1) / MAX_CHUNK_DATA) i)
    ∧ (idxs.map (fun i => sendFrameChunkMsg t payload ctr
          ((payload.length + MAX_CHUNK_DATA - 1) / MAX_CHUNK_DATA) i)).Perm
        (send_frame t payload ctr).msgs
    ∧ ∃ ev : PeerEvent,
        chunkEventOf t pid payload = some ev
        ∧ runMessages ⟨[]⟩ pid
            (idxs.map (fun i => sendFrameChunkMsg t payload ctr
              ((payload.length + MAX_CHUNK_DATA - 1) / MAX_CHUNK_DATA) i))
          = (⟨[]⟩, [ev]) := by
  have hlen : 15000 < 1 + payload.length := by
    simpa [MAX_DC_MSG_SIZE] using hbig
  have hfit14990 : payload.length ≤ 14990 * 65535 := by
    simpa [MAX_CHUNK_DATA, MAX_DC_MSG_SIZE, CHUNK_HEADER_SIZE] using hfit
  have hCunfold : MAX_CHUNK_DATA = 14990 := by
    norm_num [MAX_CHUNK_DATA, MAX_DC_MSG_SIZE, CHUNK_HEADER_SIZE]
  have htlt : (payload.length + MAX_CHUNK_DATA - 1) / MAX_CHUNK_DATA < 2 ^ 16 := by
    rw [hCunfold]
    omega
  have h2 : 2 ≤ (payload.length + MAX_CHUNK_DATA - 1) / MAX_CHUNK_DATA := by
    rw [hCunfold]
    omega
  have hpay : payload ≠ [] := by
    intro hcon
    rw [hcon] at hlen
    simp at hlen
  have hmsgs := send_frame_chunked_eq t payload ctr hbig hfit
  refine ⟨hmsgs, by rw [hmsgs]; exact hperm.map _, ?_⟩
  have hrun := runMessages_chunk_perm payload pid t ctr
    ((payload.length + MAX_CHUNK_DATA - 1) / MAX_CHUNK_DATA) hctr htlt h2 rfl hpay
    idxs [] ⟨[]⟩ (by simpa using hperm)
    (by
      intro hcon
      rw [hcon] at hperm
      have := hperm.length_eq
      simp only [List.length_nil, List.length_range] at this
      omega)
    (Or.inl ⟨rfl, rfl⟩)
  rcases ht with rfl | rfl
  · exact ⟨PeerEvent.videoFrame pid payload, rfl, by simpa [chunkEventOf] using hrun⟩
  · exact ⟨PeerEvent.screenFrame pid payload, rfl, by simpa [chunkEventOf] using hrun⟩

theorem chunked_frame_roundtrip_witness :
    MAX_DC_MSG_SIZE < 1 + (List.replicate 15001 7).length
    ∧ (List.replicate 15001 7).length ≤ MAX_CHUNK_DATA * 65535
    ∧ [1, 0].Perm (List.range
        (((List.replicate 15001 7).length + MAX_CHUNK_DATA - 1) / MAX_CHUNK_DATA))
    ∧ ∃ ev : PeerEvent,
        chunkEventOf 86 "p" (List.replicate 15001 7) = some ev
        ∧ runMessages ⟨[]⟩ "p"
            ([1, 0].map (fun i => sendFrameChunkMsg 86 (List.replicate 15001 7) 0
              (((List.replicate 15001 7).length + MAX_CHUNK_DATA - 1)
                / MAX_CHUNK_DATA) i))
          = (⟨[]⟩, [ev]) := by
  have hb : MAX_DC_MSG_SIZE < 1 + (List.replicate (15001 : Nat) (7 : Nat)).length := by
    norm_num [MAX_DC_MSG_SIZE]
  have hf : (List.replicate (15001 : Nat) (7 : Nat)).length ≤ MAX_CHUNK_DATA * 65535 := by
    norm_num [MAX_CHUNK_DATA, MAX_DC_MSG_SIZE, CHUNK_HEADER_SIZE]
  have hp : [1, 0].Perm (List.range
      (((List.replicate (15001 : Nat) (7 : Nat)).length + MAX_CHUNK_DATA - 1)
        / MAX_CHUNK_DATA)) := by
    have h2 : ((List.replicate (15001 : Nat) (7 : Nat)).length + MAX_CHUNK_DATA - 1)
        / MAX_CHUNK_DATA = 2 := by
      norm_num [MAX_CHUNK_DATA, MAX_DC_MSG_SIZE, CHUNK_HEADER_SIZE]
    rw [h2]
    decide
  exact ⟨hb, hf, hp,
    (chunked_frame_roundtrip (List.replicate 15001 7) "p" 86 0 [1, 0] hb hf
      (by norm_num) (Or.inl rfl) hp).2.2⟩

/-- C4: `send_frame` emits the single message `type byte :: payload` exactly
when `1 + payload length ≤ 15000` and chunks otherwise: a 14999-byte payload
goes out as one message, a 15000-byte payload is split into at least two
chunks, every emitted message is at most 15000 bytes, and the chunk messages
are emitted in increasing index order (the `j`-th message carries chunk
index `j`) with their data parts concatenating back to the payload without
gap or overlap. -/
theorem send_frame_single_iff_and_chunk_cover :
    (∀ (t : Nat) (payload : List Nat) (ctr : Nat),
        payload.length ≤ MAX_CHUNK_DATA * 65535 →
        ((send_frame t payload ctr).msgs = [t :: payload]
          ↔ 1 + payload.length ≤ MAX_DC_MSG_SIZE))
    ∧ (∀ (t : Nat) (payload : List Nat) (ctr : Nat), payload.length = 14999 →
        (send_frame t payload ctr).msgs = [t :: payload])
    ∧ (∀ (t : Nat) (payload : List Nat) (ctr : Nat), payload.length = 15000 →
        2 ≤ (send_frame t payload ctr).msgs.length)
    ∧ (∀ (t : Nat) (payload : List Nat) (ctr : Nat),
        ∀ m ∈ (send_frame t payload ctr).msgs, m.length ≤ MAX_DC_MSG_SIZE)
    ∧ (∀ (t : Nat) (payload : List Nat) (ctr : Nat),
        MAX_DC_MSG_SIZE < 1 + payload.length →
        payload.length ≤ MAX_CHUNK_DATA * 65535 →
        (((send_frame t payload ctr).msgs.map
            (fun m => m.drop CHUNK_HEADER_SIZE)).flatten = payload
          ∧ ∀ j, ∀ h : j < (send_frame t payload ctr).msgs.length,
              (send_frame t payload ctr).msgs.get ⟨j, h⟩
                = sendFrameChunkMsg t payload ctr
                    ((payload.length + MAX_CHUNK_DATA - 1) / MAX_CHUNK_DATA) j)) := by
  have hM : MAX_DC_MSG_SIZE = 15000 := by norm_num [MAX_DC_MSG_SIZE]
  have hC : MAX_CHUNK_DATA = 14990 := by
    norm_num [MAX_CHUNK_DATA, MAX_DC_MSG_SIZE, CHUNK_HEADER_SIZE]
  refine ⟨?_, ?_, ?_, ?_, ?_⟩
  · intro t payload ctr hfit
    constructor
    · intro hsingle
      by_contra hbig
      push_neg at hbig
      rw [send_frame_chunked_eq t payload ctr (by omega) hfit] at hsingle
      have hlen := congrArg List.length hsingle
      simp only [List.length_map, List.length_range, List.length_cons,
        List.length_nil] at hlen
      rw [hC] at hfit hlen
      rw [hM] at hbig
      omega
    · intro hsmall
      rw [send_frame, if_pos hsmall]
  · intro t payload ctr hlen
    rw [send_frame, if_pos (by omega)]
  · intro t payload ctr hlen
    rw [send_frame_chunked_eq t payload ctr (by rw [hM]; omega) (by rw [hC]; omega)]
    simp only [List.length_map, List.length_range]
    rw [hC, hlen]
  · intro t payload ctr m hm
    rw [send_frame] at hm
    by_cases hsmall : 1 + payload.length ≤ MAX_DC_MSG_SIZE
    · rw [if_pos hsmall] at hm
      simp only [List.mem_singleton] at hm
      subst hm
      simp only [List.length_cons]
      rw [hM]
      rw [hM] at hsmall
      omega
    · rw [if_neg hsmall] at hm
      simp only [List.mem_map, List.mem_range] at hm
      obtain ⟨i, _, rfl⟩ := hm
      have htk := List.length_take_le MAX_CHUNK_DATA (payload.drop (i * MAX_CHUNK_DATA))
      simp only [sendFrameChunkMsg, u32_le_bytes, u16_le_bytes, chunkSlice,
        List.length_cons, List.length_append, List.length_nil]
      rw [hM]
      simp only [hC] at htk ⊢
      omega
  · intro t payload ctr hbig hfit
    rw [send_frame_chunked_eq t payload ctr hbig hfit]
    constructor
    · have hpay : payload ≠ [] := by
        intro hcon
        rw [hcon] at hbig
        rw [hM] at hbig
        simp at hbig
      have hdrop : ∀ i : Nat,
          (sendFrameChunkMsg t payload ctr
            ((payload.length + MAX_CHUNK_DATA - 1) / MAX_CHUNK_DATA) i).drop
              CHUNK_HEADER_SIZE = chunkSlice payload i := by
        intro i
        simp [sendFrameChunkMsg, u32_le_bytes, u16_le_bytes, CHUNK_HEADER_SIZE]
      rw [List.map_map]
      have hfun :
          ((fun m => m.drop CHUNK_HEADER_SIZE) ∘
            (fun i => sendFrameChunkMsg t payload ctr
              ((payload.length + MAX_CHUNK_DATA - 1) / MAX_CHUNK_DATA) i))
            = fun i => chunkSlice payload i := by
        funext i
        exact hdrop i
      rw [hfun]
      simpa [chunkSlice] using
        chunk_slices_flatten MAX_CHUNK_DATA (by rw [hC]; omega)
          ((payload.length + MAX_CHUNK_DATA - 1) / MAX_CHUNK_DATA) payload hpay rfl
    · intro j h
      simp only [List.get_eq_getElem, List.getElem_map, List.getElem_range]

theorem send_frame_single_iff_and_chunk_cover_witness :
    (List.replicate 14999 0).length = 14999
    ∧ (send_frame 86 (List.replicate 14999 0) 5).msgs = [86 :: List.replicate 14999 0]
    ∧ (List.replicate 15000 0).length = 15000
    ∧ 2 ≤ (send_frame 86 (List.replicate 15000 0) 5).msgs.length := by
  refine ⟨by norm_num, ?_, by norm_num, ?_⟩
  · exact (send_frame_single_iff_and_chunk_cover.2.1) 86 (List.replicate 14999 0) 5
      (by norm_num)
  · exact (send_frame_single_iff_and_chunk_cover.2.2.1) 86 (List.replicate 15000 0) 5
      (by norm_num)

/-- C5 counterexample: an entry whose frame id is exactly 4 older than the
arriving chunk's frame id — hence not "more than 4 older" — is nevertheless
evicted: a pending entry for frame id 0 of the same peer and frame type is
removed by the cleanup triggered by frame id 4, since
`wrapping_sub(4, 0) = 4` fails the strict `< 4` retention test. -/
theorem cleanup_evicts_exactly_four_old :
    ((⟨[(("p", 86, 0), (3, [(0, [1])]))]⟩ : ChunkAssembler).cleanup "p" 86 4).pending
      = []
    ∧ wrappingSub32 4 0 = 4 := by
  constructor
  · decide
  · decide

/-- C5 (amended): the cleanup run when a chunk with frame id `f` arrives for
a given (peer, frame type) removes exactly the pending entries of that peer
and frame type whose frame id is at least 4 older than `f` (wrapping-aware:
retained iff `wrapping_sub(f, id) < 4`), and retains all other pending
entries; in particular an entry missing a chunk is evicted once the fourth
subsequent frame id arrives. -/
theorem cleanup_retains_iff :
    (∀ (a : ChunkAssembler) (peer_id : String) (frame_type current_frame_id : Nat)
        (kv : PendingKey × (Nat × ChunkMap)),
      kv ∈ (a.cleanup peer_id frame_type current_frame_id).pending
        ↔ kv ∈ a.pending
          ∧ (kv.1.1 ≠ peer_id ∨ kv.1.2.1 ≠ frame_type
              ∨ wrappingSub32 current_frame_id kv.1.2.2 < 4))
    ∧ (∀ (a : ChunkAssembler) (peer_id : String) (frame_type e : Nat)
        (entry : Nat × ChunkMap),
      ((peer_id, frame_type, e % 2 ^ 32), entry)
        ∉ (a.cleanup peer_id frame_type ((e + 4) % 2 ^ 32)).pending) := by
  have hmem : ∀ (a : ChunkAssembler) (peer_id : String)
      (frame_type current_frame_id : Nat) (kv : PendingKey × (Nat × ChunkMap)),
      kv ∈ (a.cleanup peer_id frame_type current_frame_id).pending
        ↔ kv ∈ a.pending
          ∧ (kv.1.1 ≠ peer_id ∨ kv.1.2.1 ≠ frame_type
              ∨ wrappingSub32 current_frame_id kv.1.2.2 < 4) := by
    intro a peer_id frame_type current_frame_id kv
    simp only [ChunkAssembler.cleanup, List.mem_filter, Bool.or_eq_true,
      Bool.not_eq_eq_eq_not, Bool.not_true, beq_eq_false_iff_ne, ne_eq,
      decide_eq_true_eq]
    tauto
  refine ⟨hmem, ?_⟩
  intro a peer_id frame_type e entry hmem2
  rw [hmem] at hmem2
  simp only [ne_eq, not_true_eq_false, false_or] at hmem2
  obtain ⟨-, hlt⟩ := hmem2
  simp only [wrappingSub32] at hlt
  omega

/-! ## Ring-buffer lemmas (claim C7) -/

theorem trimRing_eq_drop (ring : List ℚ) :
    trimRing ring = ring.drop (ring.length - 4800) := by
  induction ring using trimRing.induct with
  | case1 ring hgt ih =>
    rw [trimRing.eq_def, if_pos hgt, ih, List.drop_drop]
    have harg : 1 + ((ring.drop 1).length - 4800) = ring.length - 4800 := by
      simp only [List.length_drop]
      omega
    rw [harg]
  | case2 ring hle =>
    rw [trimRing.eq_def, if_neg hle]
    have : ring.length - 4800 = 0 := by omega
    rw [this, List.drop_zero]

theorem trimRing_length (ring : List ℚ) :
    (trimRing ring).length = min ring.length 4800 := by
  rw [trimRing_eq_drop]
  simp only [List.length_drop]
  omega

theorem ringWrite_length (ring frame : List ℚ) :
    (ringWrite ring frame).length = min ring.length 4800 + frame.length := by
  simp [ringWrite, trimRing_length]

/-- C7 counterexample: six consecutive 960-sample frames written into an
initially empty playback ring leave 5760 samples — more than the claimed
4800-sample cap — because each write trims to 4800 *before* appending. -/
theorem ring_can_exceed_4800 :
    (ringWrite (ringWrite (ringWrite (ringWrite (ringWrite (ringWrite []
          (List.replicate 960 (1 : ℚ))) (List.replicate 960 1))
          (List.replicate 960 1)) (List.replicate 960 1))
          (List.replicate 960 1)) (List.replicate 960 1)).length = 5760
    ∧ 4800 < 5760 := by
  refine ⟨?_, by norm_num⟩
  simp only [ringWrite_length, List.length_replicate, List.length_nil]
  norm_num

/-- C7 (amended): the playback ring is trimmed to at most 4800 samples
immediately before each write, dropping the oldest samples; after a write
of a received PCM frame it therefore holds at most `4800 + frame length`
samples (5760 for the 960-sample frames the Opus decoder produces) — the
claimed invariant `≤ 4800` holds before each write but not after it. -/
theorem ring_trim_before_write_bound :
    (∀ ring : List ℚ, (trimRing ring).length ≤ 4800)
    ∧ (∀ ring : List ℚ, trimRing ring = ring.drop (ring.length - 4800))
    ∧ (∀ ring frame : List ℚ,
        (ringWrite ring frame).length ≤ 4800 + frame.length) := by
  refine ⟨?_, trimRing_eq_drop, ?_⟩
  · intro ring
    rw [trimRing_length]
    omega
  · intro ring frame
    rw [ringWrite_length]
    omega

/-- C9 (code-bug evidence): the deafened flag does not silence playback.
From a joined session, `SetDeafened(true)` records the flag and
rebroadcasts but leaves the playback stream active; a remote PCM frame
decoded afterwards still enters the playback ring, and the output callback
(whose stop flag is still set to running) emits the frame's samples
verbatim — not zeros. -/
theorem deafened_playback_not_silenced :
    ((handleSetDeafened
        (handleJoinVoice "me" idleEngine "r1" "general" true true true).1
        true).1.is_deafened = true)
    ∧ ((handleSetDeafened
        (handleJoinVoice "me" idleEngine "r1" "general" true true true).1
        true).1.playback_active = true)
    ∧ remoteFrameToRing [] (List.replicate 960 (1 : ℚ)) = List.replicate 960 1
    ∧ playback_callback true (List.replicate 960 (1 : ℚ)) 960
        = (List.replicate 960 1, [])
    ∧ List.replicate 960 (1 : ℚ) ≠ List.replicate 960 0 := by
  refine ⟨rfl, rfl, ?_, ?_, ?_⟩
  · rw [remoteFrameToRing, ringWrite, trimRing_eq_drop]
    simp only [List.length_nil, List.drop_nil, List.nil_append, Nat.zero_sub]
  · rw [playback_callback]
    simp only [Bool.not_true, Bool.false_eq_true, if_false, List.length_replicate,
      Nat.sub_self, List.replicate_zero, List.append_nil, List.take_replicate,
      List.drop_replicate, Nat.min_self]
  · intro hcon
    have := congrArg (fun l => l.headD 0) hcon
    simp at this

/-- C8 counterexample: with a live session in room `r1` (one peer
connection open), a `JoinVoice` for room `r2` emits exactly one network
command — the join `VoiceState` for `r2` — and no voice-state-leave
(`channel = None`) broadcast for `r1` at all. -/
theorem rejoin_sends_no_leave_broadcast :
    (handleJoinVoice "me"
        { idleEngine with
            current_room_id := some "r1"
            current_channel_id := some "c1"
            capture_active := true, playback_active := true
            opus_encoder_active := true
            peer_manager := some ⟨["peer-b"], ["peer-b"]⟩
            remote_decoders := ["peer-b"], remote_audio := ["peer-b"] }
        "r2" "lobby" true true true).2
      = [NetCmd.sendVoiceState "r2" (some "lobby") false false false false]
    ∧ ∀ cmd ∈ (handleJoinVoice "me"
        { idleEngine with
            current_room_id := some "r1"
            current_channel_id := some "c1"
            capture_active := true, playback_active := true
            opus_encoder_active := true
            peer_manager := some ⟨["peer-b"], ["peer-b"]⟩
            remote_decoders := ["peer-b"], remote_audio := ["peer-b"] }
        "r2" "lobby" true true true).2,
      isLeaveBroadcast cmd = false := by
  constructor
  · rfl
  · intro cmd hcmd
    simp only [handleJoinVoice] at hcmd
    simp only [List.mem_singleton] at hcmd
    subst hcmd
    rfl

/-- C8 (amended): a `JoinVoice` arriving during an active session closes
all prior peer connections, clears the decoder set and pending remote
audio, and (when codec creation succeeds) installs a fresh Opus encoder —
all before the new session becomes active — but the only broadcast emitted
is the join state for the new room: no voice-state-leave for the old room
is sent. -/
theorem rejoin_teardown_no_leave_broadcast (my : String) (s : EngineState)
    (r2 ch2 : String) (c p e : Bool)
    (hin : s.current_channel_id.isSome = true) :
    (handleJoinVoice my s r2 ch2 c p e).1.peer_manager = some ⟨[], []⟩
    ∧ (handleJoinVoice my s r2 ch2 c p e).1.remote_decoders = []
    ∧ (handleJoinVoice my s r2 ch2 c p e).1.remote_audio = []
    ∧ (handleJoinVoice my s r2 ch2 c p e).1.opus_encoder_active = e
    ∧ (handleJoinVoice my s r2 ch2 c p e).1.current_room_id = some r2
    ∧ (handleJoinVoice my s r2 ch2 c p e).1.current_channel_id = some ch2
    ∧ (handleJoinVoice my s r2 ch2 c p e).2
        = [NetCmd.sendVoiceState r2 (some ch2) false false false false]
    ∧ ∀ cmd ∈ (handleJoinVoice my s r2 ch2 c p e).2,
        isLeaveBroadcast cmd = false := by
  obtain ⟨pmold, hpm⟩ : ∃ x, s.peer_manager = x := ⟨_, rfl⟩
  refine ⟨?_, ?_, ?_, ?_, ?_, ?_, ?_, ?_⟩ <;>
    simp only [handleJoinVoice, hin, if_true] <;>
    cases e <;>
    simp [isLeaveBroadcast]

theorem rejoin_teardown_no_leave_broadcast_witness :
    (({ idleEngine with
          current_room_id := some "r1"
          current_channel_id := some "c1" } : EngineState).current_channel_id.isSome
        = true)
    ∧ (handleJoinVoice "me"
        { idleEngine with
            current_room_id := some "r1"
            current_channel_id := some "c1" } "r2" "lobby" true true true).1.peer_manager
        = some ⟨[], []⟩
    ∧ (handleJoinVoice "me"
        { idleEngine with
            current_room_id := some "r1"
            current_channel_id := some "c1" } "r2" "lobby" true true true).2
        = [NetCmd.sendVoiceState "r2" (some "lobby") false false false false] :=
  ⟨rfl,
   (rejoin_teardown_no_leave_broadcast "me"
     { idleEngine with
         current_room_id := some "r1"
         current_channel_id := some "c1" } "r2" "lobby" true true true rfl).1,
   (rejoin_teardown_no_leave_broadcast "me"
     { idleEngine with
         current_room_id := some "r1"
         current_channel_id := some "c1" } "r2" "lobby" true true true
     rfl).2.2.2.2.2.2.1⟩

/-! ## Offer tie-break lemmas (claim C1) -/

theorem offerCount_nil (B : String) : offerCount [] B = 0 := rfl

theorem offerCount_append (a b : List NetCmd) (B : String) :
    offerCount (a ++ b) B = offerCount a B + offerCount b B := by
  simp [offerCount, List.filter_append]

theorem offerCount_single_offer (room p ch B : String) :
    offerCount [NetCmd.sendCallOffer room p ch] B = if p = B then 1 else 0 := by
  by_cases h : p = B <;> simp [offerCount, h]

/-- One `VoiceStateChanged` step, seen from a voice session: the session
(room, channel) is untouched, a peer manager remains present, at most one
offer is sent, an offer to `B` leaves a connection to `B` behind, and an
existing connection to `B` survives any event that is not `B` leaving. -/
theorem vsc_step_facts (my B : String) (s : EngineState) (ev : VoiceStateEvent)
    (ch : String) (pm : PMState)
    (hch : s.current_channel_id = some ch) (hpm : s.peer_manager = some pm)
    (hnoleave : ¬(ev.peer_id = B ∧ ev.channel_id = none)) :
    ∃ pm2 : PMState,
      (handleVoiceStateChanged my s ev).1.peer_manager = some pm2
      ∧ (handleVoiceStateChanged my s ev).1.current_channel_id = some ch
      ∧ (handleVoiceStateChanged my s ev).1.current_room_id = s.current_room_id
      ∧ offerCount (handleVoiceStateChanged my s ev).2 B ≤ 1
      ∧ (B ∈ pm.connections →
          offerCount (handleVoiceStateChanged my s ev).2 B = 0
          ∧ B ∈ pm2.connections)
      ∧ (0 < offerCount (handleVoiceStateChanged my s ev).2 B →
          B ∈ pm2.connections) := by
  simp only [handleVoiceStateChanged, hch]
  by_cases hC : ev.peer_id ≠ my ∧ ev.channel_id = some ch
      ∧ some ev.room_id = s.current_room_id
  · -- same-channel branch taken; the leave branch cannot fire
    have hnotnone : ¬(ev.peer_id ≠ my ∧ ev.channel_id = none) := by
      intro hcon
      rw [hC.2.1] at hcon
      exact Option.noConfusion hcon.2
    by_cases hlt : my < ev.peer_id
    · by_cases hconn : ev.peer_id ∈ pm.connections
      · refine ⟨pm, ?_, ?_, ?_, ?_, ?_, ?_⟩ <;>
          simp [sameChannelStep, offerStep, leaveStep, hC, hlt, hpm, hconn,
            hnotnone, hch, offerCount_nil]
      · refine ⟨⟨pm.connections ++ [ev.peer_id], pm.data_channels ++ [ev.peer_id]⟩,
          ?_, ?_, ?_, ?_, ?_, ?_⟩
        · simp [sameChannelStep, offerStep, leaveStep, hC, hlt, hpm, hconn, hnotnone]
        · simp [sameChannelStep, offerStep, leaveStep, hC, hlt, hpm, hconn,
            hnotnone, hch]
        · simp [sameChannelStep, offerStep, leaveStep, hC, hlt, hpm, hconn, hnotnone]
        · by_cases heq : ev.peer_id = B
          · subst heq
            simp [sameChannelStep, offerStep, leaveStep, hC, hlt, hpm, hconn,
              hnotnone, offerCount]
          · simp [sameChannelStep, offerStep, leaveStep, hC, hlt, hpm, hconn,
              hnotnone, offerCount, heq]
        · intro hB
          have hne : ev.peer_id ≠ B := by
            intro hcon
            rw [hcon] at hconn
            exact hconn hB
          constructor
          · simp [sameChannelStep, offerStep, leaveStep, hC, hlt, hpm, hconn,
              hnotnone, offerCount, hne]
          · simp only [PMState.mk.injEq]
            exact List.mem_append_left _ hB
        · intro hpos
          by_cases heq : ev.peer_id = B
          · rw [← heq]
            exact List.mem_append_right _ (by simp)
          · simp [sameChannelStep, offerStep, leaveStep, hC, hlt, hpm, hconn,
              hnotnone, offerCount, heq] at hpos
    · refine ⟨pm, ?_, ?_, ?_, ?_, ?_, ?_⟩ <;>
        simp [sameChannelStep, offerStep, leaveStep, hC, hlt, hpm, hnotnone,
          hch, offerCount_nil]
  · -- same-channel branch not taken
    by_cases hleave : ev.peer_id ≠ my ∧ ev.channel_id = none
    · have hBne : ev.peer_id ≠ B := by
        intro hcon
        exact hnoleave ⟨hcon, hleave.2⟩
      refine ⟨⟨pm.connections.filter (fun q => !(q == ev.peer_id)),
        pm.data_channels.filter (fun q => !(q == ev.peer_id))⟩,
        ?_, ?_, ?_, ?_, ?_, ?_⟩ <;>
        simp [sameChannelStep, leaveStep, hC, hleave, hpm, hch, offerCount_nil]
      intro hB
      refine ⟨hB, ?_⟩
      intro hcon
      exact hBne hcon.symm
    · refine ⟨pm, ?_, ?_, ?_, ?_, ?_, ?_⟩ <;>
        simp [sameChannelStep, leaveStep, hC, hleave, hpm, hch, offerCount_nil]

/-- Offers to `B` over a whole event trace, strengthened with the
connection-state invariant. -/
theorem runEvents_offer_bound (my B : String) :
    ∀ (evs : List VoiceStateEvent) (s : EngineState) (ch : String) (pm : PMState),
      s.current_channel_id = some ch → s.peer_manager = some pm →
      (∀ ev ∈ evs, ¬(ev.peer_id = B ∧ ev.channel_id = none)) →
      offerCount (runEvents my s evs).2 B
        ≤ if B ∈ pm.connections then 0 else 1 := by
  intro evs
  induction evs with
  | nil =>
    intro s ch pm _ _ _
    rw [runEvents]
    simp only [offerCount_nil]
    split <;> omega
  | cons ev evs ih =>
    intro s ch pm hch hpm hnl
    obtain ⟨pm2, hpm2, hch2, _, hle1, hmem, hpos⟩ :=
      vsc_step_facts my B s ev ch pm hch hpm (hnl ev (by simp))
    have hsplit : offerCount (runEvents my s (ev :: evs)).2 B
        = offerCount (handleVoiceStateChanged my s ev).2 B
          + offerCount (runEvents my (handleVoiceStateChanged my s ev).1 evs).2 B := by
      rw [runEvents]
      exact offerCount_append _ _ B
    have htail := ih (handleVoiceStateChanged my s ev).1 ch pm2 hch2 hpm2
      (fun e he => hnl e (by simp [he]))
    rw [hsplit]
    by_cases hB : B ∈ pm.connections
    · obtain ⟨h0, hBm⟩ := hmem hB
      rw [h0, if_pos hB]
      rw [if_pos hBm] at htail
      omega
    · rw [if_neg hB]
      by_cases hstep : 0 < offerCount (handleVoiceStateChanged my s ev).2 B
      · have hBm := hpos hstep
        rw [if_pos hBm] at htail
        omega
      · push_neg at hstep
        have htail1 : offerCount (runEvents my (handleVoiceStateChanged my s ev).1 evs).2 B ≤ 1 := by
          by_cases h2 : B ∈ pm2.connections
          · rw [if_pos h2] at htail
            omega
          · rw [if_neg h2] at htail
            omega
        omega

/-- C1: while in a voice session, a `VoiceStateChanged` event makes the
engine create a WebRTC offer for the remote peer if and only if the remote
reports the same room and channel, the remote peer id differs from the
local one, the local peer id is lexicographically smaller (Rust `String`
`<`, byte order), and no peer connection to that peer exists; consequently,
over any trace of `VoiceStateChanged` events in which `B` never reports
leaving (channel `None`), at most one offer is issued to `B`. -/
theorem voice_offer_tie_break :
    (∀ (my : String) (s : EngineState) (ev : VoiceStateEvent) (r ch : String)
        (pm : PMState),
      s.current_room_id = some r → s.current_channel_id = some ch →
      s.peer_manager = some pm →
      (0 < offerCount (handleVoiceStateChanged my s ev).2 ev.peer_id
        ↔ ev.room_id = r ∧ ev.channel_id = some ch ∧ ev.peer_id ≠ my
            ∧ my < ev.peer_id ∧ ev.peer_id ∉ pm.connections))
    ∧ (∀ (my B : String) (s : EngineState) (evs : List VoiceStateEvent)
        (ch : String) (pm : PMState),
      s.current_channel_id = some ch → s.peer_manager = some pm →
      (∀ ev ∈ evs, ¬(ev.peer_id = B ∧ ev.channel_id = none)) →
      offerCount (runEvents my s evs).2 B ≤ 1) := by
  constructor
  · intro my s ev r ch pm hr hch hpm
    simp only [handleVoiceStateChanged, hch]
    by_cases hC : ev.peer_id ≠ my ∧ ev.channel_id = some ch
        ∧ some ev.room_id = s.current_room_id
    · by_cases hlt : my < ev.peer_id
      · by_cases hconn : ev.peer_id ∈ pm.connections
        · simp [sameChannelStep, offerStep, hC, hlt, hpm, hconn, offerCount]
        · have hroom : ev.room_id = r := by
            have := hC.2.2
            rw [hr] at this
            exact (Option.some_inj.mp this.symm).symm
          constructor
          · intro _
            exact ⟨hroom, hC.2.1, hC.1, hlt, hconn⟩
          · intro _
            simp [sameChannelStep, offerStep, hC, hlt, hpm, hconn, hr,
              offerCount]
      · simp only [sameChannelStep, offerStep, hC, hlt, hpm, if_true, if_false,
          ite_true, ite_false, and_self, if_pos, if_neg, not_false_iff]
        simp [hC, hlt, hpm, offerCount]
    · have hCfalse : ¬(ev.room_id = r ∧ ev.channel_id = some ch ∧ ev.peer_id ≠ my
          ∧ my < ev.peer_id ∧ ev.peer_id ∉ pm.connections) := by
        intro hcon
        apply hC
        refine ⟨hcon.2.2.1, hcon.2.1, ?_⟩
        rw [hr, hcon.1]
      have hres : sameChannelStep my s ev ch = (s, []) := by
        rw [sameChannelStep, if_neg hC]
      rw [hres]
      simp only [offerCount_nil]
      constructor
      · intro h
        exact absurd h (by omega)
      · intro hcon
        exact absurd hcon hCfalse
  · intro my B s evs ch pm hch hpm hnl
    have := runEvents_offer_bound my B evs s ch pm hch hpm hnl
    by_cases hB : B ∈ pm.connections
    · rw [if_pos hB] at this
      omega
    · rw [if_neg hB] at this
      omega

theorem voice_offer_tie_break_witness :
    (0 < offerCount (handleVoiceStateChanged "peer-a"
        { idleEngine with
            current_room_id := some "r"
            current_channel_id := some "general"
            peer_manager := some ⟨[], []⟩ }
        ⟨"peer-b", some "general", "r", false, false⟩).2 "peer-b"
      ↔ ("r" = "r" ∧ (some "general" : Option String) = some "general"
          ∧ "peer-b" ≠ "peer-a" ∧ "peer-a" < "peer-b"
          ∧ "peer-b" ∉ ([] : List String)))
    ∧ offerCount (runEvents "peer-a"
        { idleEngine with
            current_room_id := some "r"
            current_channel_id := some "general"
            peer_manager := some ⟨[], []⟩ }
        [⟨"peer-b", some "general", "r", false, false⟩,
         ⟨"peer-b", some "general", "r", false, false⟩]).2 "peer-b" ≤ 1 :=
  ⟨voice_offer_tie_break.1 "peer-a"
      { idleEngine with
          current_room_id := some "r"
          current_channel_id := some "general"
          peer_manager := some ⟨[], []⟩ }
      ⟨"peer-b", some "general", "r", false, false⟩ "r" "general" ⟨[], []⟩
      rfl rfl rfl,
   voice_offer_tie_break.2 "peer-a" "peer-b"
      { idleEngine with
          current_room_id := some "r"
          current_channel_id := some "general"
          peer_manager := some ⟨[], []⟩ }
      [⟨"peer-b", some "general", "r", false, false⟩,
       ⟨"peer-b", some "general", "r", false, false⟩]
      "general" ⟨[], []⟩ rfl rfl (by
        intro ev hev
        have hv : ev = ⟨"peer-b", some "general", "r", false, false⟩ := by
          rcases List.mem_cons.mp hev with h | h2
          · exact h
          · rcases List.mem_cons.mp h2 with h | h
            · exact h
            · cases h
        subst hv
        simp)⟩

end Chatr
